import Mathlib

set_option maxHeartbeats 1000000
set_option linter.unusedVariables false

/-!
Verification development for the consensus core of a proof-of-work full
node (the `core-rs` repository).  The file contains a shallow embedding of
the parts of the code base that the checked properties talk about:

* the single-listener observer (`src/utils/observer.rs`),
* the network time offset computation (`src/network/network.rs`),
* the account outgoing-transaction guard and the pruned-account hashing
  (`src/consensus/base/account/mod.rs`),
* the connection pool admission and close bookkeeping
  (`src/network/connection/connection_pool.rs`),
* the blockchain push state machine
  (`src/consensus/base/blockchain/blockchain.rs`).

Code of the repository that the checked sentences depend on but that is
not among the given sources (the coin type, the block and chain-info
types, the transaction cache, the account variants, the policy and
network constants) is modelled from the specification text; every such
definition carries a doc comment starting with `Modelled from the spec:`.
Machine integers are natural numbers with explicit bounds where overflow
matters; fallible code returns `Option` or `Except` (a `none` result
models a run that panics).
-/

namespace CoreRs

/-! ## Association list helpers (model of the HashMap indices) -/

/-- Lookup in an association list keyed by naturals; models `HashMap::get`. -/
def lookupAssoc {α : Type} (k : Nat) : List (Nat × α) → Option α
  | [] => none
  | p :: rest => if p.1 = k then some p.2 else lookupAssoc k rest

/-- Remove a key from an association list; models `HashMap::remove`. -/
def removeAssoc {α : Type} (k : Nat) : List (Nat × α) → List (Nat × α)
  | [] => []
  | p :: rest => if p.1 = k then rest else p :: removeAssoc k rest

/-! ## Observer utilities (src/utils/observer.rs, lines 72 to 96)

`PassThroughNotifier` stores at most one listener (`listener:
Option<Box<PassThroughListener>>`).  Listeners are identified by a tag, and
the delivery performed by `notify` is reified as the list of
(listener, event) pairs the call hands to listeners. -/

structure PassThroughNotifier (E : Type) where
  listener : Option Nat

/-- The source item `PassThroughNotifier::new`: no listener. -/
def PassThroughNotifier.new (E : Type) : PassThroughNotifier E := ⟨none⟩

/-- The source item `register` overwrites the stored listener unconditionally
(`self.listener = Some(Box::new(listener))`). -/
def PassThroughNotifier.register {E : Type} (n : PassThroughNotifier E) (l : Nat) :
    PassThroughNotifier E := ⟨some l⟩

/-- The source item `deregister` clears the stored listener. -/
def PassThroughNotifier.deregister {E : Type} (n : PassThroughNotifier E) :
    PassThroughNotifier E := ⟨none⟩

/-- The source item `notify` calls the stored listener once with the event, or does nothing
when no listener is registered. -/
def PassThroughNotifier.notify {E : Type} (n : PassThroughNotifier E) (e : E) :
    List (Nat × E) :=
  match n.listener with
  | none => []
  | some l => [(l, e)]

/-! ## Network time offset (src/network/network.rs, lines 213 to 235) -/

/-- Sorted insertion of an integer (ascending). -/
def insertSortedInt (x : Int) : List Int → List Int
  | [] => [x]
  | y :: ys => if x ≤ y then x :: y :: ys else y :: insertSortedInt x ys

/-- Insertion sort on integers; models `offsets.sort_by(i64::cmp)`. -/
def sortInts (l : List Int) : List Int := l.foldr insertSortedInt []

/-- The source item `Network::update_time_offset`: collect `0` for self plus the
`time_offset` of every established peer, sort, and take the middle element
for odd length.  For even length the code computes
`(offsets[len / 2 - 1] + offsets[len / 2 - 1]) / 2`, averaging the lower
middle element with itself. -/
def updateTimeOffset (peerOffsets : List Int) : Int :=
  let offsets := sortInts (0 :: peerOffsets)
  if offsets.length % 2 = 0 then
    (offsets.getD (offsets.length / 2 - 1) 0 + offsets.getD (offsets.length / 2 - 1) 0) / 2
  else
    offsets.getD ((offsets.length - 1) / 2) 0

/-- The median described by the spec: the middle element for odd length and
the mean of the two middle elements of the sorted list for even length. -/
def medianSpecOffset (peerOffsets : List Int) : Int :=
  let offsets := sortInts (0 :: peerOffsets)
  if offsets.length % 2 = 0 then
    (offsets.getD (offsets.length / 2 - 1) 0 + offsets.getD (offsets.length / 2) 0) / 2
  else
    offsets.getD ((offsets.length - 1) / 2) 0

/-! ## Coins, accounts and pruned accounts
(src/consensus/base/account/mod.rs; the coin type and the three account
variant types are not among the given sources and are modelled from the
specification) -/

/-- Modelled from the spec: the `Coin` type
(src/consensus/base/primitive/coin.rs is missing from the sources).  An
unsigned 64-bit integer balance with checked add and sub. -/
structure Coin where
  val : Nat
deriving DecidableEq

/-- Modelled from the spec: checked addition on coins; `none` on overflow
of the 64-bit range. -/
def Coin.checkedAdd (c d : Coin) : Option Coin :=
  if c.val + d.val < 2 ^ 64 then some ⟨c.val + d.val⟩ else none

/-- Modelled from the spec: checked subtraction on coins; `none` on
underflow. -/
def Coin.checkedSub (c d : Coin) : Option Coin :=
  if d.val ≤ c.val then some ⟨c.val - d.val⟩ else none

/-- Big-endian fixed-width byte encoding of a natural number; models the
deterministic integer encoding of the serialization format. -/
def beBytes (w n : Nat) : List Nat :=
  (List.range w).map (fun i => n / 256 ^ (w - 1 - i) % 256)

/-- Modelled from the spec: `BasicAccount`
(src/consensus/base/account/basic_account.rs is missing from the
sources). -/
structure BasicAccount where
  balance : Coin
deriving DecidableEq

/-- Modelled from the spec: `VestingContract`
(src/consensus/base/account/vesting_contract.rs is missing from the
sources).  Addresses are 20-byte strings modelled as lists of byte
values. -/
structure VestingContract where
  balance : Coin
  owner : List Nat
  start : Nat
  step_blocks : Nat
  step_amount : Coin
  total_amount : Coin
deriving DecidableEq

/-- Modelled from the spec: `HashedTimeLockedContract`
(src/consensus/base/account/htlc_contract.rs is missing from the
sources). -/
structure HashedTimeLockedContract where
  balance : Coin
  sender : List Nat
  recipient : List Nat
  hash_algo : Nat
  hash_root : List Nat
  hash_count : Nat
  timeout : Nat
  total_amount : Coin
deriving DecidableEq

/-- The source item `Account` (src/consensus/base/account/mod.rs, lines 38 to 43): a tagged
variant over the three account kinds. -/
inductive Account where
  | Basic (a : BasicAccount)
  | Vesting (v : VestingContract)
  | HTLC (h : HashedTimeLockedContract)
deriving DecidableEq

/-- The source item `AccountError` (src/consensus/base/account/mod.rs, lines 243 to 254).
The payloads of `InvalidSerialization` and `InvalidTransaction` are opaque
to the checked properties and are dropped. -/
inductive AccountError where
  | InsufficientFunds
  | TypeMismatch
  | InvalidSignature
  | InvalidForSender
  | InvalidForRecipient
  | InvalidPruning
  | InvalidSerialization
  | InvalidTransaction
  | AccountsHashMismatch
deriving DecidableEq

/-- The source item `AccountType` discriminant byte (`repr(u8)`, Basic = 0, Vesting = 1,
HTLC = 2). -/
def Account.typeByte : Account → Nat
  | .Basic _ => 0
  | .Vesting _ => 1
  | .HTLC _ => 2

/-- The source item `Account::balance` (src/consensus/base/account/mod.rs, lines 109 to
115). -/
def Account.balance : Account → Coin
  | .Basic a => a.balance
  | .Vesting v => v.balance
  | .HTLC h => h.balance

/-- Modelled from the spec: serialization of `BasicAccount` in the
deterministic format (unsigned integers big-endian, fixed widths). -/
def BasicAccount.serializeM (a : BasicAccount) : List Nat :=
  beBytes 8 a.balance.val

/-- Modelled from the spec: serialization of `VestingContract`. -/
def VestingContract.serializeM (v : VestingContract) : List Nat :=
  beBytes 8 v.balance.val ++ v.owner ++ beBytes 4 v.start ++ beBytes 4 v.step_blocks
    ++ beBytes 8 v.step_amount.val ++ beBytes 8 v.total_amount.val

/-- Modelled from the spec: serialization of `HashedTimeLockedContract`. -/
def HashedTimeLockedContract.serializeM (h : HashedTimeLockedContract) : List Nat :=
  beBytes 8 h.balance.val ++ h.sender ++ h.recipient ++ [h.hash_algo] ++ h.hash_root
    ++ [h.hash_count] ++ beBytes 4 h.timeout ++ beBytes 8 h.total_amount.val

/-- The source item `Serialize for Account` (src/consensus/base/account/mod.rs, lines 146
to 164): the discriminant byte followed by the variant serialization. -/
def Account.serializeM : Account → List Nat
  | .Basic a => 0 :: a.serializeM
  | .Vesting v => 1 :: v.serializeM
  | .HTLC h => 2 :: h.serializeM

/-- The source item `PrunedAccount` (src/consensus/base/account/mod.rs, lines 206 to 210). -/
structure PrunedAccount where
  address : List Nat
  account : Account
deriving DecidableEq

/-- Serialization of a `PrunedAccount`: the 20 address bytes followed by
the account serialization. -/
def PrunedAccount.serializeM (p : PrunedAccount) : List Nat :=
  p.address ++ p.account.serializeM

/-- The source item `SerializeContent for PrunedAccount` (src/consensus/base/account/mod.rs,
line 213): the content form is the plain serialization. -/
def PrunedAccount.serializeContent (p : PrunedAccount) : List Nat :=
  p.serializeM

/-- The source item `Hash for PrunedAccount` (src/consensus/base/account/mod.rs, lines 216
to 222), translated exactly: the hash builder `h` is created in its default
(empty) state, `serialize_content` writes the content bytes into a
temporary vector that is then dropped, and `h.finish()` digests the bytes
the builder received, which are none.  `blake` is the Blake2b-256
compression, a parameter of the model. -/
def PrunedAccount.hashM (blake : List Nat → Nat) (p : PrunedAccount) : Nat :=
  let builderBytes : List Nat := []
  let _scratch := p.serializeContent
  blake builderBytes

/-- A concrete stand-in for the Blake2b-256 digest used to evaluate the
hash model on concrete inputs: the length of the input byte string (any
function separating the empty string from the 29-byte contents below would
do). -/
def blakeLenModel (l : List Nat) : Nat := l.length

/-- Transaction (modelled from the spec:
src/consensus/base/transaction/mod.rs is missing from the sources).
Fields follow the data model: `(sender, sender_type, recipient,
recipient_type, value, fee, validity_start_height, network_id, data,
proof)`; the two type tags are discriminant bytes. -/
structure Transaction where
  sender : List Nat
  sender_type : Nat
  recipient : List Nat
  recipient_type : Nat
  value : Coin
  fee : Coin
  validity_start_height : Nat
  network_id : Nat
  data : List Nat
  proof : List Nat
deriving DecidableEq

/-- The variant-specific outgoing-transaction rules that
`Account::with_outgoing_transaction` dispatches to.  Those rules live in
the three account variant files, which are missing from the sources, so
the dispatch targets are parameters of the embedding; the checked guard
property holds for every choice of them. -/
structure AccountVariantOps where
  basicWithOutgoing : BasicAccount → Transaction → Nat → Except AccountError BasicAccount
  vestingWithOutgoing : VestingContract → Transaction → Nat → Except AccountError VestingContract
  htlcWithOutgoing : HashedTimeLockedContract → Transaction → Nat → Except AccountError HashedTimeLockedContract

/-- The source item `Account::with_outgoing_transaction` (src/consensus/base/account/mod.rs,
lines 86 to 95): the balance check `balance < transaction.value +
transaction.fee` runs before the variant dispatch.  The coin addition is
modelled from the spec (checked add whose overflow surfaces as
`InsufficientFunds`). -/
def Account.withOutgoingTransaction (ops : AccountVariantOps) (a : Account)
    (tx : Transaction) (blockHeight : Nat) : Except AccountError Account :=
  let balance := a.balance
  match Coin.checkedAdd tx.value tx.fee with
  | none => .error .InsufficientFunds
  | some total =>
    if balance.val < total.val then .error .InsufficientFunds
    else
      match a with
      | .Basic b => (ops.basicWithOutgoing b tx blockHeight).map .Basic
      | .Vesting v => (ops.vestingWithOutgoing v tx blockHeight).map .Vesting
      | .HTLC h => (ops.htlcWithOutgoing h tx blockHeight).map .HTLC

/-- Trivial variant rules used to evaluate the guard on concrete inputs. -/
def trivialVariantOps : AccountVariantOps :=
  { basicWithOutgoing := fun b _ _ => .ok b
    vestingWithOutgoing := fun v _ _ => .ok v
    htlcWithOutgoing := fun h _ _ => .ok h }

/-- A concrete pruned account (all-zero address, empty basic account). -/
def prunedSampleA : PrunedAccount :=
  { address := List.replicate 20 0, account := .Basic ⟨⟨0⟩⟩ }

/-- A concrete pruned account differing from `prunedSampleA` in the first
address byte. -/
def prunedSampleB : PrunedAccount :=
  { address := 1 :: List.replicate 19 0, account := .Basic ⟨⟨0⟩⟩ }

/-- A concrete transaction spending 10 with fee 0. -/
def txSample : Transaction :=
  { sender := List.replicate 20 0, sender_type := 0
    recipient := List.replicate 20 1, recipient_type := 0
    value := ⟨10⟩, fee := ⟨0⟩, validity_start_height := 1
    network_id := 42, data := [], proof := [] }

/-! ## Connection pool (src/network/connection/connection_pool.rs)

The model covers the state the admission and close paths read and write:
the connection table, the three secondary indices, the explicit counters
and the two policy flags.  IP addresses are natural numbers; peer
addresses are natural-number identifiers.  The policy constants
(`PEER_COUNT_PER_IP_MAX` and friends, src/network/mod.rs) and the subnet
truncation (src/network/address/net_address.rs) are missing from the
sources and are parameters of the model, gathered in `PoolConfig`. -/

/-- Modelled from the spec: a net address, with its reliability flag and
whether it is an IPv4 address (net_address.rs is missing from the
sources). -/
structure NetAddressM where
  ip : Nat
  reliable : Bool
  isV4 : Bool

/-- The source item `Protocol` of a peer address (Ws, Wss, Rtc or Dumb). -/
inductive ProtocolM where
  | ws | wss | rtc | dumb
deriving DecidableEq

/-- The source item `ConnectionState` (src/network/connection/connection_info.rs, modelled
from the spec lifecycle `New → Connecting → Connected → Negotiating →
Established → Closed`). -/
inductive ConnectionState where
  | New | Connecting | Connected | Negotiating | Established | Closed
deriving DecidableEq

/-- Modelled from the spec: the fields of `ConnectionInfo` the pool state
machine reads (connection_info.rs is missing from the sources).  `inbound`
is the direction of the network connection; `netAddress = some a` models a
present network connection with net address `a`; `protocol` and the three
service flags model `peer_address.protocol()` and
`peer_address.services`. -/
structure ConnectionInfoM where
  state : ConnectionState
  inbound : Bool
  peerAddress : Option Nat
  netAddress : Option NetAddressM
  protocol : ProtocolM
  isFull : Bool
  isLight : Bool
  isNano : Bool

/-- Modelled from the spec: the policy constants and the subnet truncation
used by the pool. -/
structure PoolConfig where
  peerCountPerIpMax : Nat
  inboundPeerCountPerSubnetMax : Nat
  peerCountMax : Nat
  peerCountDumbMax : Nat
  subnetOf : Nat → Nat
  subnet64Of : Nat → Nat

/-- The source item `ConnectionPoolState` (src/network/connection/connection_pool.rs, lines
42 to 68): the connection table, the index by peer address, the multiset
indices by exact net address and by subnet (stored as id lists), the
explicit counters and the policy flags.  The sparse vector is modelled by
a fresh-id counter (slot reuse changes only which ids are handed out). -/
structure PoolStateM where
  connections : List (Nat × ConnectionInfoM)
  nextId : Nat
  connectionsByPeerAddress : List (Nat × Nat)
  connectionsByNetAddress : List (Nat × List Nat)
  connectionsBySubnet : List (Nat × List Nat)
  peerCountWs : Nat
  peerCountWss : Nat
  peerCountRtc : Nat
  peerCountDumb : Nat
  peerCountFull : Nat
  peerCountLight : Nat
  peerCountNano : Nat
  peerCountOutbound : Nat
  peerCountFullWsOutbound : Nat
  connectingCount : Nat
  inboundCount : Nat
  allowInboundConnections : Bool
  allowInboundExchange : Bool
  bannedIps : List Nat

/-- The initial pool state built by `ConnectionPool::new` (lines 339 to
365): everything empty, both policy flags false. -/
def poolInit : PoolStateM :=
  { connections := [], nextId := 0
    connectionsByPeerAddress := [], connectionsByNetAddress := []
    connectionsBySubnet := []
    peerCountWs := 0, peerCountWss := 0, peerCountRtc := 0, peerCountDumb := 0
    peerCountFull := 0, peerCountLight := 0, peerCountNano := 0
    peerCountOutbound := 0, peerCountFullWsOutbound := 0
    connectingCount := 0, inboundCount := 0
    allowInboundConnections := false, allowInboundExchange := false
    bannedIps := [] }

/-- The source item `ConnectionPool::set_allow_inbound_connections`. -/
def PoolStateM.setAllowInboundConnections (s : PoolStateM) (b : Bool) : PoolStateM :=
  { s with allowInboundConnections := b }

/-- Checked subtraction on naturals, the model of `usize::checked_sub`. -/
def checkedSubNat (n k : Nat) : Option Nat :=
  if k ≤ n then some (n - k) else none

/-- The id set stored in a net-address or subnet index entry. -/
def idsAt (key : Nat) (l : List (Nat × List Nat)) : List Nat :=
  (lookupAssoc key l).getD []

/-- Insert an id into the id set of a key (`HashSet::insert` under
`entry(..).or_insert_with(HashSet::new)`). -/
def insertIdAssoc (key id : Nat) : List (Nat × List Nat) → List (Nat × List Nat)
  | [] => [(key, [id])]
  | (k, ids) :: rest =>
    if k = key then (k, if id ∈ ids then ids else id :: ids) :: rest
    else (k, ids) :: insertIdAssoc key id rest

/-- Remove an id from the id set of a key, dropping the entry when the set
becomes empty (`remove_net_address`, lines 206 to 238). -/
def removeIdAssoc (key id : Nat) : List (Nat × List Nat) → List (Nat × List Nat)
  | [] => []
  | (k, ids) :: rest =>
    if k = key then
      (if (ids.filter (fun i => i ≠ id)).isEmpty then rest
       else (k, ids.filter (fun i => i ≠ id)) :: rest)
    else (k, ids) :: removeIdAssoc key id rest

/-- The source item `get_num_connections_by_net_address` (lines 109 to 112). -/
def PoolStateM.numByNetAddress (s : PoolStateM) (ip : Nat) : Nat :=
  (idsAt ip s.connectionsByNetAddress).length

/-- The source item `get_num_connections_by_subnet` (lines 121 to 125); the key is the
truncated subnet address. -/
def PoolStateM.numBySubnet (s : PoolStateM) (subnet : Nat) : Nat :=
  (idsAt subnet s.connectionsBySubnet).length

/-- The source item `ConnectionPoolState::peer_count` (lines 148 to 152): the sum of the
per-protocol counters. -/
def PoolStateM.peerCount (s : PoolStateM) : Nat :=
  s.peerCountWs + s.peerCountWss + s.peerCountRtc + s.peerCountDumb

/-- The source item `ConnectionPoolState::count` (lines 243 to 245). -/
def PoolStateM.count (s : PoolStateM) : Nat :=
  s.connectionsByPeerAddress.length + s.inboundCount

/-- The source item `is_ip_banned` (lines 262 to 264): membership of the exact address in
the banned table (the pseudo-address exception never applies to the
reliable addresses the callers pass). -/
def PoolStateM.isIpBanned (s : PoolStateM) (a : NetAddressM) : Bool :=
  s.bannedIps.contains a.ip

/-- The source item `ban_ip` (lines 248 to 259): reliable addresses only; IPv4 bans the
exact address, IPv6 bans a /64. -/
def PoolStateM.banIp (cfg : PoolConfig) (s : PoolStateM) (a : NetAddressM) : PoolStateM :=
  if a.reliable then
    { s with bannedIps := (if a.isV4 then a.ip else cfg.subnet64Of a.ip) :: s.bannedIps }
  else s

/-- The source item `add_net_address` (lines 189 to 203): reliable addresses only; insert
the id into the exact-address index and into the subnet index. -/
def PoolStateM.addNetAddress (cfg : PoolConfig) (s : PoolStateM) (id : Nat)
    (a : NetAddressM) : PoolStateM :=
  if a.reliable then
    { s with
      connectionsByNetAddress := insertIdAssoc a.ip id s.connectionsByNetAddress
      connectionsBySubnet := insertIdAssoc (cfg.subnetOf a.ip) id s.connectionsBySubnet }
  else s

/-- The source item `remove_net_address` (lines 206 to 238). -/
def PoolStateM.removeNetAddress (cfg : PoolConfig) (s : PoolStateM) (id : Nat)
    (a : NetAddressM) : PoolStateM :=
  if a.reliable then
    { s with
      connectionsByNetAddress := removeIdAssoc a.ip id s.connectionsByNetAddress
      connectionsBySubnet := removeIdAssoc (cfg.subnetOf a.ip) id s.connectionsBySubnet }
  else s

/-- The source item `ConnectionPool::check_connection` (lines 443 to 488) for a connection
with direction `inbound` and net address `a`: reject when inbound
connections are not allowed (inbound only); for reliable addresses reject
banned IPs, more than `PEER_COUNT_PER_IP_MAX` existing connections to the
IP, or more than `INBOUND_PEER_COUNT_PER_SUBNET_MAX` to the subnet;
finally reject when the peer count has reached `PEER_COUNT_MAX` unless the
connection is outbound or inbound exchange is allowed. -/
def checkConnection (cfg : PoolConfig) (s : PoolStateM) (inbound : Bool)
    (a : NetAddressM) : Bool :=
  if inbound ∧ ¬ s.allowInboundConnections then false
  else if a.reliable ∧ s.isIpBanned a then false
  else if a.reliable ∧ s.numByNetAddress a.ip > cfg.peerCountPerIpMax then false
  else if a.reliable ∧ s.numBySubnet (cfg.subnetOf a.ip) > cfg.inboundPeerCountPerSubnetMax then false
  else if s.peerCount ≥ cfg.peerCountMax ∧ ¬ (¬ inbound) ∧ ¬ (inbound ∧ s.allowInboundExchange) then false
  else true

/-- The inbound branch of `ConnectionPool::on_connection` (lines 501 to
592) up to the index registration: allocate a fresh `ConnectionInfo` in
`Connected` state, increment the inbound-pending counter, run
`check_connection`, and on acceptance register the net-address and subnet
indices.  A rejected connection is closed (its close callback fires
later); the state keeps the allocated info either way. -/
def onConnectionInbound (cfg : PoolConfig) (s : PoolStateM) (a : NetAddressM) : PoolStateM :=
  let info : ConnectionInfoM :=
    { state := .Connected, inbound := true, peerAddress := none, netAddress := some a
      protocol := .ws, isFull := false, isLight := false, isNano := false }
  let id := s.nextId
  let s1 : PoolStateM :=
    { s with connections := (id, info) :: s.connections, nextId := s.nextId + 1
             inboundCount := s.inboundCount + 1 }
  if checkConnection cfg s1 true a then s1.addNetAddress cfg id a else s1

/-- A sequence of inbound connection offers processed in order. -/
def processInboundOffers (cfg : PoolConfig) (s : PoolStateM) (addrs : List NetAddressM) :
    PoolStateM :=
  addrs.foldl (fun st a => onConnectionInbound cfg st a) s

/-- The source item `update_connected_peer_count` with `PeerCountUpdate::Remove` (lines 275
to 305): decrement the per-protocol counter, the service counter and the
outbound counters with checked subtraction; a `none` result models the
panic of `update_checked!` on underflow or of the `unwrap` on a missing
peer address or network connection. -/
def updateConnectedPeerCountRemove (s : PoolStateM) (info : ConnectionInfoM) :
    Option PoolStateM := do
  let _ ← info.peerAddress
  let _ ← info.netAddress
  let s ← match info.protocol with
    | .wss => (checkedSubNat s.peerCountWss 1).map (fun n => { s with peerCountWss := n })
    | .ws => (checkedSubNat s.peerCountWs 1).map (fun n => { s with peerCountWs := n })
    | .rtc => (checkedSubNat s.peerCountRtc 1).map (fun n => { s with peerCountRtc := n })
    | .dumb => (checkedSubNat s.peerCountDumb 1).map (fun n => { s with peerCountDumb := n })
  let s ←
    if info.isFull then (checkedSubNat s.peerCountFull 1).map (fun n => { s with peerCountFull := n })
    else if info.isLight then (checkedSubNat s.peerCountLight 1).map (fun n => { s with peerCountLight := n })
    else if info.isNano then (checkedSubNat s.peerCountNano 1).map (fun n => { s with peerCountNano := n })
    else some s
  if ¬ info.inbound then
    let s ← (checkedSubNat s.peerCountOutbound 1).map (fun n => { s with peerCountOutbound := n })
    if info.isFull ∧ (info.protocol = .ws ∨ info.protocol = .wss) then
      (checkedSubNat s.peerCountFullWsOutbound 1).map (fun n => { s with peerCountFullWsOutbound := n })
    else some s
  else some s

/-- The source item `ConnectionPoolState::remove` (lines 173 to 186): take the info out of
the table, drop the peer-address index entry when a peer address is set,
and drop the net-address index entries when a network connection is
present.  `none` models the panic of the `unwrap` on a missing id. -/
def PoolStateM.removeConn (cfg : PoolConfig) (s : PoolStateM) (id : Nat) :
    Option (ConnectionInfoM × PoolStateM) := do
  let info ← lookupAssoc id s.connections
  let s1 : PoolStateM := { s with connections := removeAssoc id s.connections }
  let s2 : PoolStateM :=
    match info.peerAddress with
    | some pa => { s1 with connectionsByPeerAddress := removeAssoc pa s1.connectionsByPeerAddress }
    | none => s1
  let s3 : PoolStateM :=
    match info.netAddress with
    | some a => s2.removeNetAddress cfg id a
    | none => s2
  some (info, s3)

/-- The source item `ConnectionPool::on_close` (lines 753 to 817).  The close type is
reduced to its banning flag.  After removing the info: when the handshake
had completed (`Established`), optionally ban the IP and decrement the
connected-peer counters; otherwise, for an inbound connection the code
evaluates `state.inbound_count.checked_sub(1).expect(..)` and discards the
result, leaving `inbound_count` unchanged (a `none` result models the
panic of the `expect` when the counter is zero, and of the `unreachable`
when no network connection is set). -/
def onClose (cfg : PoolConfig) (s : PoolStateM) (id : Nat) (banning : Bool) :
    Option PoolStateM := do
  let (info, s1) ← s.removeConn cfg id
  if info.state = ConnectionState.Established then
    let s2 :=
      if banning then
        match info.netAddress with
        | some a => s1.banIp cfg a
        | none => s1
      else s1
    updateConnectedPeerCountRemove s2 info
  else
    match info.netAddress with
    | some _ =>
      if info.inbound then do
        let _discarded ← checkedSubNat s1.inboundCount 1
        some s1
      else some s1
    | none => none

/-- Configuration used for concrete pool runs: per-IP cap 1, generous
other caps, identity subnets. -/
def poolCfgSample : PoolConfig :=
  { peerCountPerIpMax := 1, inboundPeerCountPerSubnetMax := 100
    peerCountMax := 100, peerCountDumbMax := 100
    subnetOf := fun ip => ip, subnet64Of := fun ip => ip }

/-- A reliable IPv4 sample address. -/
def netAddrSample : NetAddressM := { ip := 7, reliable := true, isV4 := true }

/-- A pool holding exactly one inbound pre-handshake connection (id 0,
state `Connected`, no peer address yet) with `inbound_count = 1`, as left
by an inbound `on_connection` admission. -/
def poolOneInbound : PoolStateM :=
  { poolInit with
    connections := [(0, { state := .Connected, inbound := true, peerAddress := none
                          netAddress := some netAddrSample, protocol := .ws
                          isFull := false, isLight := false, isNano := false })]
    nextId := 1
    connectionsByNetAddress := [(7, [0])]
    connectionsBySubnet := [(7, [0])]
    inboundCount := 1 }

/-! ## Blockchain engine (src/consensus/base/blockchain/blockchain.rs)

Hashes are natural numbers.  The block and chain-info types, the chain
store, the transaction cache and the policy window are missing from the
sources and are modelled from the specification.  The intrinsic block
checks (`Block::verify`, `is_immediate_successor_of`), the header hash,
the per-block difficulty `1 / target`, and the retarget computation
`TargetCompact::from(get_next_target(..))` (floating point in the source)
are parameters of the embedding, gathered in `EngineOps` together with the
accounts backend interface of the spec
(`commit_block` / `revert_block` / `hash`). -/

/-- Modelled from the spec: a block header with the nine header fields. -/
structure BlockHeader where
  version : Nat
  prev_hash : Nat
  interlink_hash : Nat
  body_hash : Nat
  accounts_hash : Nat
  n_bits : Nat
  height : Nat
  timestamp : Nat
  nonce : Nat
deriving DecidableEq

/-- Modelled from the spec: a block body.  Transactions are represented by
their unique-identity hashes (the hash over all fields except the proof),
which is the identity the transaction cache stores; pruned accounts are
opaque. -/
structure BlockBody where
  miner_address : List Nat
  extra_data : List Nat
  transactions : List Nat
  pruned_accounts : List Nat
deriving DecidableEq

/-- Modelled from the spec: a block.  The source keeps the body optional
and `push` asserts its presence, so the embedding works with full
blocks. -/
structure Block where
  header : BlockHeader
  body : BlockBody
deriving DecidableEq

/-- Modelled from the spec: `ChainInfo`
(src/consensus/base/blockchain/chain_info.rs is missing from the
sources): per-block metadata with cumulative difficulty and work and the
main-chain flags. -/
structure ChainInfo where
  head : Block
  total_difficulty : ℚ
  total_work : ℚ
  on_main_chain : Bool
  main_chain_successor : Option Nat

/-- Modelled from the spec: the `TransactionCache`
(src/consensus/base/blockchain/transaction_cache.rs is missing from the
sources): the sliding window of the most recent blocks, newest first,
each entry holding the block hash and its transaction hashes. -/
structure TransactionCache where
  blocks : List (Nat × List Nat)

/-- The source item `contains_any`: true iff some transaction of the block collides with a
hash in the window. -/
def TransactionCache.containsAny (c : TransactionCache) (b : Block) : Bool :=
  b.body.transactions.any (fun t => c.blocks.any (fun e => e.2.contains t))

/-- The source item `push_block`: prepend the newest block and trim the window to `w`
blocks.  `hh` is the header hash function. -/
def TransactionCache.pushBlock (c : TransactionCache) (hh : BlockHeader → Nat)
    (w : Nat) (b : Block) : TransactionCache :=
  ⟨((hh b.header, b.body.transactions) :: c.blocks).take w⟩

/-- The source item `revert_block`: drop the newest window entry (the given block). -/
def TransactionCache.revertBlock (c : TransactionCache) (hh : BlockHeader → Nat)
    (b : Block) : TransactionCache :=
  match c.blocks with
  | [] => c
  | (h, _) :: rest => if h = hh b.header then ⟨rest⟩ else c

/-- The source item `prepend_block`: append a block at the old end of the window while the
window is not full. -/
def TransactionCache.prependBlock (c : TransactionCache) (hh : BlockHeader → Nat)
    (w : Nat) (b : Block) : TransactionCache :=
  if c.blocks.length < w then ⟨c.blocks ++ [(hh b.header, b.body.transactions)]⟩ else c

/-- The source item `missing_blocks` = `max(0, W - current_window_size)`. -/
def TransactionCache.missingBlocks (c : TransactionCache) (w : Nat) : Nat :=
  w - c.blocks.length

/-- The source item `is_empty`. -/
def TransactionCache.isEmpty (c : TransactionCache) : Bool :=
  c.blocks.isEmpty

/-- The source item `head_hash`: hash of the newest window entry. -/
def TransactionCache.headHashQ (c : TransactionCache) : Option Nat :=
  c.blocks.head?.map Prod.fst

/-- The source item `tail_hash`: hash of the oldest window entry. -/
def TransactionCache.tailHashQ (c : TransactionCache) : Option Nat :=
  c.blocks.getLast?.map Prod.fst

/-- The parts of the engine the given sources leave abstract: the header
hash, the intrinsic block checks, the retarget comparison value, the
per-block difficulty, the policy window, and the accounts backend of the
spec interface (`hash`, `commit_block`, `revert_block` over an abstract
accounts-tree state `A`).  `verify` returns `none` for a valid block and
an opaque `BlockError` code otherwise. -/
structure EngineOps (A : Type) where
  hashHeader : BlockHeader → Nat
  verify : Block → Option Nat
  isImmediateSuccessorOf : Block → Block → Bool
  nextTargetNBits : List (Nat × ChainInfo) → Nat → Nat
  difficulty : Block → ℚ
  txValidityWindow : Nat
  accountsHash : A → Nat
  commitBlock : A → Block → Except AccountError A
  revertBlock : A → Block → Except AccountError A

/-- Modelled from the spec: `ChainInfo::next`: wrap the block with
cumulative totals increased by the block difficulty `1 / target`, off the
main chain and without successor. -/
def ChainInfo.next {A : Type} (ops : EngineOps A) (prev : ChainInfo) (b : Block) : ChainInfo :=
  { head := b
    total_difficulty := prev.total_difficulty + ops.difficulty b
    total_work := prev.total_work + ops.difficulty b
    on_main_chain := false
    main_chain_successor := none }

/-- Modelled from the spec: the chain store lookup `get_chain_info`. -/
def storeGet (entries : List (Nat × ChainInfo)) (h : Nat) : Option ChainInfo :=
  lookupAssoc h entries

/-- Modelled from the spec: the chain store write `put_chain_info`. -/
def storePut (entries : List (Nat × ChainInfo)) (h : Nat) (ci : ChainInfo) :
    List (Nat × ChainInfo) :=
  match entries with
  | [] => [(h, ci)]
  | (k, v) :: rest => if k = h then (h, ci) :: rest else (k, v) :: storePut rest h ci

/-- Modelled from the spec: `get_blocks_backward`: up to `count` ancestors
of the start block, newest first, stopping at the genesis block or at a
missing entry. -/
def getBlocksBackward (entries : List (Nat × ChainInfo)) (start : Nat) :
    Nat → List Block
  | 0 => []
  | Nat.succ count =>
    match storeGet entries start with
    | none => []
    | some info =>
      match storeGet entries info.head.header.prev_hash with
      | none => []
      | some prevInfo =>
        prevInfo.head :: getBlocksBackward entries info.head.header.prev_hash count

/-- The source item `BlockchainState` (src/consensus/base/blockchain/blockchain.rs, lines
27 to 32) together with the chain store contents and head pointer; the
whole mutable state one push operates on. -/
structure BlockchainState (A : Type) where
  storeEntries : List (Nat × ChainInfo)
  storeHead : Nat
  accounts : A
  transaction_cache : TransactionCache
  main_chain : ChainInfo
  head_hash : Nat

/-- The source item `PushError` (lines 44 to 52); the `BlockError` payload is an opaque
code. -/
inductive PushError where
  | InvalidBlock (e : Nat)
  | InvalidSuccessor
  | DifficultyMismatch
  | DuplicateTransaction
  | AccountsError (e : AccountError)
  | InvalidFork
deriving DecidableEq

/-- The source item `PushResult` (lines 34 to 42). -/
inductive PushResult where
  | Invalid (e : PushError)
  | Orphan
  | Known
  | Extended
  | Rebranched
  | Forked
deriving DecidableEq

/-- The source item `Blockchain::extend` (lines 209 to 254): inside one write transaction,
reject a replayed transaction (`DuplicateTransaction`, transaction
aborted), commit the block to the accounts tree (failure aborts with
`AccountsError`), flag the new info as main chain, point the predecessor
successor at it, store both, move the store head, push the block into the
cache and publish the new main chain and head hash. -/
def Blockchain.extend {A : Type} (ops : EngineOps A) (s : BlockchainState A)
    (block_hash : Nat) (chain_info prev_info : ChainInfo) :
    Option (PushResult × BlockchainState A) :=
  if s.transaction_cache.containsAny chain_info.head then
    some (.Invalid .DuplicateTransaction, s)
  else
    match ops.commitBlock s.accounts chain_info.head with
    | .error e => some (.Invalid (.AccountsError e), s)
    | .ok accounts1 =>
      let chain_info1 := { chain_info with on_main_chain := true }
      let prev_info1 := { prev_info with main_chain_successor := some block_hash }
      let entries1 := storePut s.storeEntries block_hash chain_info1
      let entries2 := storePut entries1 chain_info1.head.header.prev_hash prev_info1
      some (.Extended,
        { storeEntries := entries2
          storeHead := block_hash
          accounts := accounts1
          transaction_cache := s.transaction_cache.pushBlock ops.hashHeader ops.txValidityWindow chain_info1.head
          main_chain := chain_info1
          head_hash := block_hash })

/-- The fork walk of `Blockchain::rebranch` (lines 264 to 274): walk the
fork backward until a main-chain block (the common ancestor) is reached,
collecting the fork chain tip first.  `none` models the store-corruption
panic on a missing predecessor; the walk is fuelled. -/
def forkWalk (entries : List (Nat × ChainInfo)) :
    Nat → (Nat × ChainInfo) → Option (List (Nat × ChainInfo) × (Nat × ChainInfo))
  | 0, _ => none
  | Nat.succ fuel, cur =>
    if cur.2.on_main_chain then some ([], cur)
    else
      match storeGet entries cur.2.head.header.prev_hash with
      | none => none
      | some prevInfo =>
        match forkWalk entries fuel (cur.2.head.header.prev_hash, prevInfo) with
        | none => none
        | some (rest, anc) => some (cur :: rest, anc)

/-- The revert walk of `Blockchain::rebranch` (lines 279 to 308): from the
current head back to the common ancestor, revert each block in the
accounts tree (failure is the fatal revert panic), pop it from the cache,
fetch the predecessor, and assert that the intermediate accounts root
equals the predecessor header accounts hash.  Returns the reverted
accounts state, the reverted cache and the revert chain, newest first. -/
def revertWalk {A : Type} (ops : EngineOps A) (entries : List (Nat × ChainInfo))
    (ancestorHash : Nat) :
    Nat → (Nat × ChainInfo) → A → TransactionCache →
    Option (A × TransactionCache × List (Nat × ChainInfo))
  | fuel, cur, acc, cache =>
    if cur.1 = ancestorHash then some (acc, cache, [])
    else
      match fuel with
      | 0 => none
      | Nat.succ fuel1 =>
        match ops.revertBlock acc cur.2.head with
        | .error _ => none
        | .ok acc1 =>
          let cache1 := cache.revertBlock ops.hashHeader cur.2.head
          match storeGet entries cur.2.head.header.prev_hash with
          | none => none
          | some prevInfo =>
            if prevInfo.head.header.accounts_hash = ops.accountsHash acc1 then
              match revertWalk ops entries ancestorHash fuel1
                  (cur.2.head.header.prev_hash, prevInfo) acc1 cache1 with
              | none => none
              | some (accF, cacheF, chain) => some (accF, cacheF, cur :: chain)
            else none

/-- The fork application loop of `Blockchain::rebranch` (lines 323 to
340), over the fork blocks in chronological order: a cache collision or a
commit failure aborts (`InvalidFork`); otherwise commit each block and
push it into the cache. -/
def applyFork {A : Type} (ops : EngineOps A) :
    A → TransactionCache → List (Nat × ChainInfo) → Except Unit (A × TransactionCache)
  | acc, cache, [] => .ok (acc, cache)
  | acc, cache, fb :: rest =>
    if cache.containsAny fb.2.head then .error ()
    else
      match ops.commitBlock acc fb.2.head with
      | .error _ => .error ()
      | .ok acc1 =>
        applyFork ops acc1 (cache.pushBlock ops.hashHeader ops.txValidityWindow fb.2.head) rest

/-- Set the main-chain flag and successors on the fork chain (tip first):
each info is flagged `on_main_chain` and the successor of an entry is the
hash of the entry before it (the tip getting none). -/
def setForkFlags (fc : List (Nat × ChainInfo)) : List (Nat × ChainInfo) :=
  (fc.zip (none :: fc.map (fun p => some p.1))).map
    (fun q => (q.1.1, { q.1.2 with on_main_chain := true, main_chain_successor := q.2 }))

/-- The cache refill of `Blockchain::rebranch` (lines 310 to 321): assert
the reverted cache window ends at the common ancestor, pick the refill
start (the main-chain successor of the ancestor for an empty window, the
window tail otherwise), prepend the blocks fetched backward from the
store, and assert the window invariant
`missing_blocks = W - ancestor.height` (saturating).  `none` models a
failed assertion or a missing main-chain successor. -/
def refillCache {A : Type} (ops : EngineOps A) (entries : List (Nat × ChainInfo))
    (ancestor : Nat × ChainInfo) (cache1 : TransactionCache) : Option TransactionCache :=
  if cache1.isEmpty = true ∨ cache1.headHashQ = some ancestor.1 then
    match (if cache1.isEmpty then ancestor.2.main_chain_successor else cache1.tailHashQ) with
    | none => none
    | some start_hash =>
      let blocks := getBlocksBackward entries start_hash
        (cache1.missingBlocks ops.txValidityWindow)
      let cache2 := blocks.foldl
        (fun c b => c.prependBlock ops.hashHeader ops.txValidityWindow b) cache1
      if cache2.missingBlocks ops.txValidityWindow
          = ops.txValidityWindow - ancestor.2.head.header.height then some cache2
      else none
  else none

/-- The write-lock section of `Blockchain::rebranch` (lines 345 to 381):
unset the main-chain flag and successor on every reverted block, point the
ancestor successor at the earliest fork block, flag the fork chain as main
chain with chained successors, and publish the new store entries, accounts
state, cache, main chain and head hash.  The store head pointer is not
moved.  `none` models the panic of `fork_chain.last().unwrap()` on an
empty fork chain. -/
def rebranchPublish {A : Type} (s : BlockchainState A)
    (fork_chain : List (Nat × ChainInfo)) (ancestor : Nat × ChainInfo)
    (revert_chain : List (Nat × ChainInfo)) (accounts2 : A)
    (cache3 : TransactionCache) : Option (PushResult × BlockchainState A) :=
  match fork_chain.getLast? with
  | none => none
  | some lastFork =>
    let revertEntries := revert_chain.map
      (fun p => (p.1, { p.2 with on_main_chain := false, main_chain_successor := none }))
    let entries1 := revertEntries.foldl (fun es p => storePut es p.1 p.2) s.storeEntries
    let ancestor1 := { ancestor.2 with main_chain_successor := some lastFork.1 }
    let entries2 := storePut entries1 ancestor.1 ancestor1
    let forkFlagged := setForkFlags fork_chain
    let entries3 := forkFlagged.foldl (fun es p => storePut es p.1 p.2) entries2
    match forkFlagged.head? with
    | none => none
    | some newMain =>
      some (.Rebranched,
        { storeEntries := entries3
          storeHead := s.storeHead
          accounts := accounts2
          transaction_cache := cache3
          main_chain := newMain.2
          head_hash := newMain.1 })

/-- The source item `Blockchain::rebranch` (lines 256 to 396).  Walk the fork to the
common ancestor; revert the main chain to it; refill the cache window; a
cache collision or accounts failure on a fork block aborts the transaction
and returns `Invalid(InvalidFork)` with the state unchanged; otherwise
publish the rebranched chain.  `none` models a run that panics on a
corrupted store or a failed assertion. -/
def Blockchain.rebranch {A : Type} (ops : EngineOps A) (fuel : Nat)
    (s : BlockchainState A) (block_hash : Nat) (chain_info : ChainInfo) :
    Option (PushResult × BlockchainState A) :=
  match forkWalk s.storeEntries fuel (block_hash, chain_info) with
  | none => none
  | some (fork_chain, ancestor) =>
    match revertWalk ops s.storeEntries ancestor.1 fuel (s.head_hash, s.main_chain)
        s.accounts s.transaction_cache with
    | none => none
    | some (accounts1, cache1, revert_chain) =>
      match refillCache ops s.storeEntries ancestor cache1 with
      | none => none
      | some cache2 =>
        match applyFork ops accounts1 cache2 fork_chain.reverse with
        | .error _ => some (.Invalid .InvalidFork, s)
        | .ok (accounts2, cache3) =>
          rebranchPublish s fork_chain ancestor revert_chain accounts2 cache3

/-- The source item `Blockchain::push` (lines 146 to 207): intrinsic verification
(`Invalid(InvalidBlock)`), known-block check (`Known`), predecessor lookup
(`Orphan`), successor check (`Invalid(InvalidSuccessor)`), retarget check
(`Invalid(DifficultyMismatch)`); then extend when the block continues the
current head, rebranch when the new cumulative difficulty strictly exceeds
the main chain difficulty, and otherwise store the info as a fork and
return `Forked`. -/
def Blockchain.push {A : Type} (ops : EngineOps A) (fuel : Nat)
    (s : BlockchainState A) (block : Block) : Option (PushResult × BlockchainState A) :=
  match ops.verify block with
  | some e => some (.Invalid (.InvalidBlock e), s)
  | none =>
    if (storeGet s.storeEntries (ops.hashHeader block.header)).isSome then some (.Known, s)
    else
      match storeGet s.storeEntries block.header.prev_hash with
      | none => some (.Orphan, s)
      | some prev_info =>
        if ¬ ops.isImmediateSuccessorOf block prev_info.head then
          some (.Invalid .InvalidSuccessor, s)
        else if block.header.n_bits ≠ ops.nextTargetNBits s.storeEntries block.header.prev_hash then
          some (.Invalid .DifficultyMismatch, s)
        else
          if (ChainInfo.next ops prev_info block).head.header.prev_hash = s.head_hash then
            Blockchain.extend ops s (ops.hashHeader block.header)
              (ChainInfo.next ops prev_info block) prev_info
          else if s.main_chain.total_difficulty
              < (ChainInfo.next ops prev_info block).total_difficulty then
            Blockchain.rebranch ops fuel s (ops.hashHeader block.header)
              (ChainInfo.next ops prev_info block)
          else
            some (.Forked, { s with storeEntries :=
              (storePut s.storeEntries (ops.hashHeader block.header)
                (ChainInfo.next ops prev_info block)) })

/-! ## Concrete instances used to evaluate the engine -/

/-- A concrete engine instantiation: headers are hashed by their nonce,
every block passes the intrinsic checks, difficulty is constant 1, the
replay window is 2 blocks, and the accounts backend state is its own root
hash with `commit_block` producing the committed header accounts hash (the
spec contract of the accounts tree). -/
def engineOpsSample : EngineOps Nat :=
  { hashHeader := fun h => h.nonce
    verify := fun _ => none
    isImmediateSuccessorOf := fun _ _ => true
    nextTargetNBits := fun _ _ => 0
    difficulty := fun _ => 1
    txValidityWindow := 2
    accountsHash := fun a => a
    commitBlock := fun _ b => .ok b.header.accounts_hash
    revertBlock := fun a _ => .ok a }

/-- A concrete genesis block (hash 1, accounts hash 5). -/
def genesisBlock : Block :=
  { header := { version := 1, prev_hash := 0, interlink_hash := 0, body_hash := 0
                accounts_hash := 5, n_bits := 0, height := 1, timestamp := 0, nonce := 1 }
    body := { miner_address := [], extra_data := [], transactions := [], pruned_accounts := [] } }

/-- The genesis chain info. -/
def genesisInfo : ChainInfo :=
  { head := genesisBlock, total_difficulty := 1, total_work := 1
    on_main_chain := true, main_chain_successor := none }

/-- The engine state right after initialization with the genesis block. -/
def chainStateSample : BlockchainState Nat :=
  { storeEntries := [(1, genesisInfo)], storeHead := 1, accounts := 5
    transaction_cache := ⟨[]⟩, main_chain := genesisInfo, head_hash := 1 }

/-- A valid successor of the genesis block (hash 2, accounts hash 7)
carrying one transaction with identity hash 42. -/
def blockTwo : Block :=
  { header := { version := 1, prev_hash := 1, interlink_hash := 0, body_hash := 0
                accounts_hash := 7, n_bits := 0, height := 2, timestamp := 0, nonce := 2 }
    body := { miner_address := [], extra_data := [], transactions := [42], pruned_accounts := [] } }

/-- The genesis state with transaction 42 already recorded in the replay
window. -/
def chainStateDup : BlockchainState Nat :=
  { chainStateSample with transaction_cache := ⟨[(1, [42])]⟩ }

/-- The state after pushing `blockTwo` onto the fresh genesis state. -/
def extendedState : BlockchainState Nat :=
  match Blockchain.push engineOpsSample 5 chainStateSample blockTwo with
  | some (_, s) => s
  | none => chainStateSample

/-- The chain info of `blockTwo` as the main-chain head (cumulative
difficulty 2). -/
def headInfoTwo : ChainInfo :=
  { head := blockTwo, total_difficulty := 2, total_work := 2
    on_main_chain := true, main_chain_successor := none }

/-- The engine state whose main chain is genesis followed by `blockTwo`,
with transaction 42 recorded in the replay window (the window of the most
recent `W = 2` accepted blocks). -/
def chainStateForkDup : BlockchainState Nat :=
  { storeEntries := [(1, { genesisInfo with main_chain_successor := some 2 }), (2, headInfoTwo)]
    storeHead := 2
    accounts := 7
    transaction_cache := ⟨[(2, [42]), (1, [])]⟩
    main_chain := headInfoTwo
    head_hash := 2 }

/-- A valid sibling of `blockTwo` (same predecessor, the genesis block;
hash 3) that carries the already-accepted transaction 42.  Its chain
reaches cumulative difficulty 2, exactly tying the current main chain. -/
def blockThreeFork : Block :=
  { header := { version := 1, prev_hash := 1, interlink_hash := 0, body_hash := 0
                accounts_hash := 9, n_bits := 0, height := 2, timestamp := 0, nonce := 3 }
    body := { miner_address := [], extra_data := [], transactions := [42], pruned_accounts := [] } }

/-- A concrete account with balance 5. -/
def accountSample : Account := .Basic ⟨⟨5⟩⟩

/-! # Theorems -/

/-! ## Helper lemmas about the index association lists -/

theorem idsAt_cons_eq (key : Nat) (ids : List Nat) (rest : List (Nat × List Nat)) :
    idsAt key ((key, ids) :: rest) = ids := by
  simp [idsAt, lookupAssoc]

theorem idsAt_cons_ne (k key : Nat) (ids : List Nat) (rest : List (Nat × List Nat))
    (h : ¬ k = key) : idsAt key ((k, ids) :: rest) = idsAt key rest := by
  simp [idsAt, lookupAssoc, h]

theorem insertIdAssoc_cons_ne (k key id : Nat) (ids : List Nat)
    (rest : List (Nat × List Nat)) (h : ¬ k = key) :
    insertIdAssoc key id ((k, ids) :: rest) = (k, ids) :: insertIdAssoc key id rest := by
  simp [insertIdAssoc, h]

theorem idsAt_insertIdAssoc_self (key id : Nat) (l : List (Nat × List Nat)) :
    idsAt key (insertIdAssoc key id l)
      = if id ∈ idsAt key l then idsAt key l else id :: idsAt key l := by
  induction l with
  | nil => simp [idsAt, insertIdAssoc, lookupAssoc]
  | cons p rest ih =>
    obtain ⟨k, ids⟩ := p
    by_cases hk : k = key
    · subst hk
      simp [insertIdAssoc, idsAt_cons_eq]
    · rw [insertIdAssoc_cons_ne k key id ids rest hk, idsAt_cons_ne k key ids _ hk,
        idsAt_cons_ne k key ids rest hk, ih]

theorem idsAt_insertIdAssoc_ne (kq key id : Nat) (l : List (Nat × List Nat))
    (h : kq ≠ key) : idsAt kq (insertIdAssoc key id l) = idsAt kq l := by
  have hkey : ¬ key = kq := fun e => h e.symm
  induction l with
  | nil =>
    simp [idsAt, insertIdAssoc, lookupAssoc, hkey]
  | cons p rest ih =>
    obtain ⟨k, ids⟩ := p
    by_cases hk : k = key
    · rw [hk]
      rw [show insertIdAssoc key id ((key, ids) :: rest)
            = (key, if id ∈ ids then ids else id :: ids) :: rest from by simp [insertIdAssoc]]
      rw [idsAt_cons_ne key kq _ rest hkey, idsAt_cons_ne key kq ids rest hkey]
    · rw [insertIdAssoc_cons_ne k key id ids rest hk]
      by_cases hq : k = kq
      · rw [hq]
        rw [idsAt_cons_eq, idsAt_cons_eq]
      · rw [idsAt_cons_ne k kq ids _ hq, idsAt_cons_ne k kq ids rest hq, ih]

/-! ## Connection pool admission lemmas -/

theorem checkConnection_perIp_le (cfg : PoolConfig) (s : PoolStateM) (inbound : Bool)
    (a : NetAddressM) (hchk : checkConnection cfg s inbound a = true)
    (hrel : a.reliable = true) :
    s.numByNetAddress a.ip ≤ cfg.peerCountPerIpMax := by
  by_contra hgt
  have hc : a.reliable = true ∧ s.numByNetAddress a.ip > cfg.peerCountPerIpMax :=
    ⟨hrel, Nat.lt_of_not_le hgt⟩
  have hfalse : checkConnection cfg s inbound a = false := by
    unfold checkConnection
    split_ifs <;> rfl
  rw [hchk] at hfalse
  exact Bool.noConfusion hfalse

theorem addNetAddress_perIp_bound (cfg : PoolConfig) (s : PoolStateM) (id : Nat)
    (a : NetAddressM) (ip : Nat)
    (hother : s.numByNetAddress ip ≤ cfg.peerCountPerIpMax + 1)
    (hcap : a.reliable = true → s.numByNetAddress a.ip ≤ cfg.peerCountPerIpMax) :
    (s.addNetAddress cfg id a).numByNetAddress ip ≤ cfg.peerCountPerIpMax + 1 := by
  unfold PoolStateM.addNetAddress
  split
  · rename_i hrel
    show (idsAt ip (insertIdAssoc a.ip id s.connectionsByNetAddress)).length
        ≤ cfg.peerCountPerIpMax + 1
    by_cases hip : ip = a.ip
    · subst hip
      rw [idsAt_insertIdAssoc_self]
      split
      · exact Nat.le_succ_of_le (hcap hrel)
      · simpa using Nat.succ_le_succ (hcap hrel)
    · rw [idsAt_insertIdAssoc_ne ip a.ip id _ hip]
      exact hother
  · exact hother

theorem onConnectionInbound_perIp_bound (cfg : PoolConfig) (st : PoolStateM)
    (a : NetAddressM) (ip : Nat)
    (hst : st.numByNetAddress ip ≤ cfg.peerCountPerIpMax + 1) :
    (onConnectionInbound cfg st a).numByNetAddress ip ≤ cfg.peerCountPerIpMax + 1 := by
  unfold onConnectionInbound
  simp only []
  split
  · rename_i hchk
    refine addNetAddress_perIp_bound cfg _ st.nextId a ip hst (fun hrel => ?_)
    exact checkConnection_perIp_le cfg _ true a hchk hrel
  · exact hst

theorem processInboundOffers_perIp_bound (cfg : PoolConfig) (addrs : List NetAddressM) :
    ∀ st : PoolStateM,
      (∀ ip, st.numByNetAddress ip ≤ cfg.peerCountPerIpMax + 1) →
      ∀ ip, (processInboundOffers cfg st addrs).numByNetAddress ip
        ≤ cfg.peerCountPerIpMax + 1 := by
  induction addrs with
  | nil => intro st h ip; exact h ip
  | cons a rest ih =>
    intro st h ip
    exact ih (onConnectionInbound cfg st a)
      (fun j => onConnectionInbound_perIp_bound cfg st a j (h j)) ip

/-! ## Claim theorems -/

/-- Claim C10 (confirmed): registering on a `PassThroughNotifier` replaces
any previously registered listener: after `register l1` followed by
`register l2`, `notify e` delivers `e` to `l2` only (`l1` receives no
further events), and `notify` on a notifier with no listener delivers
nothing. -/
theorem c10_pass_through_register_replaces (E : Type) (n : PassThroughNotifier E)
    (l1 l2 : Nat) (e : E) :
    ((n.register l1).register l2).notify e = [(l2, e)]
      ∧ (PassThroughNotifier.new E).notify e = [] :=
  ⟨rfl, rfl⟩

/-- Claim C8 (code bug): with a single established peer whose time offset
is 10, the multiset {0, 10} has spec median 5, but `update_time_offset`
computes `(offsets[0] + offsets[0]) / 2 = 0`: the even case averages the
lower middle element with itself instead of with the upper middle
element. -/
theorem c8_time_offset_not_median :
    updateTimeOffset [10] = 0 ∧ medianSpecOffset [10] = 5
      ∧ updateTimeOffset [10] ≠ medianSpecOffset [10] := by
  decide

/-- Claim C6 (code bug): `Hash for PrunedAccount` serializes the content
into a discarded buffer and finishes an empty hasher, so the digest is the
Blake2b hash of the empty byte string for every pruned account: two
pruned accounts with different serialized contents share the same hash,
and the hash differs from the digest of the serialized content. -/
theorem c6_pruned_account_hash_ignores_content :
    PrunedAccount.hashM blakeLenModel prunedSampleA
        = PrunedAccount.hashM blakeLenModel prunedSampleB
      ∧ prunedSampleA.serializeContent ≠ prunedSampleB.serializeContent
      ∧ PrunedAccount.hashM blakeLenModel prunedSampleA
        ≠ blakeLenModel prunedSampleA.serializeContent := by
  decide

/-- Claim C5 (confirmed, with the coin arithmetic modelled from the spec):
for every account, transaction and block height, and for every choice of
the variant-specific outgoing rules, `with_outgoing_transaction` returns
`Err(InsufficientFunds)` whenever the balance is smaller than
`value + fee` computed over unbounded integers (in particular whenever the
sum overflows the coin range); the check fires before the variant
dispatch. -/
theorem c5_outgoing_insufficient_funds (ops : AccountVariantOps) (a : Account)
    (tx : Transaction) (blockHeight : Nat)
    (h : a.balance.val < tx.value.val + tx.fee.val) :
    Account.withOutgoingTransaction ops a tx blockHeight = .error .InsufficientFunds := by
  cases hca : Coin.checkedAdd tx.value tx.fee with
  | none => simp [Account.withOutgoingTransaction, hca]
  | some total =>
    have htot : total.val = tx.value.val + tx.fee.val := by
      unfold Coin.checkedAdd at hca
      split at hca
      · cases hca; rfl
      · cases hca
    simp [Account.withOutgoingTransaction, hca, htot, h]

/-- Witness for C5: an account with balance 5 cannot spend value 10. -/
theorem c5_outgoing_insufficient_funds_witness :
    Account.withOutgoingTransaction trivialVariantOps accountSample txSample 1
      = .error .InsufficientFunds :=
  c5_outgoing_insufficient_funds trivialVariantOps accountSample txSample 1 (by decide)

/-- Claim C9 (code bug): closing the only inbound pre-handshake connection
leaves `count()` at 1 instead of decrementing it to 0: the result of
`inbound_count.checked_sub(1)` is discarded, so the inbound counter is
never decreased. -/
theorem c9_close_does_not_decrement_inbound :
    (onClose poolCfgSample poolOneInbound 0 false).map PoolStateM.count = some 1
      ∧ poolOneInbound.count = 1 := by
  decide

/-- Claim C7 (corrected): the per-IP admission check compares the
pre-registration count with strict inequality, so a sequence of inbound
admissions can drive the number of simultaneously admitted connections on
one IP to `PEER_COUNT_PER_IP_MAX + 1`: with a cap of 1, two admissions
from the same reliable address are both accepted. -/
theorem c7_per_ip_cap_exceeded :
    (processInboundOffers poolCfgSample (poolInit.setAllowInboundConnections true)
        [netAddrSample, netAddrSample]).numByNetAddress 7 = 2
      ∧ poolCfgSample.peerCountPerIpMax = 1 := by
  decide

/-- Claim C7 as amended (the bound the admission check actually enforces):
for every configuration and every sequence of inbound offers processed
from a fresh pool that allows inbound connections, the number of
simultaneously admitted connections on any single IP never exceeds
`PEER_COUNT_PER_IP_MAX + 1`. -/
theorem c7_per_ip_bounded (cfg : PoolConfig) (addrs : List NetAddressM) (ip : Nat) :
    (processInboundOffers cfg (poolInit.setAllowInboundConnections true) addrs).numByNetAddress ip
      ≤ cfg.peerCountPerIpMax + 1 := by
  refine processInboundOffers_perIp_bound cfg addrs _ (fun j => ?_) ip
  show (idsAt j ([] : List (Nat × List Nat))).length ≤ cfg.peerCountPerIpMax + 1
  simp [idsAt, lookupAssoc]

/-! ## Blockchain engine lemmas -/

theorem applyFork_append_last {A : Type} (ops : EngineOps A)
    (hcommit : ∀ (a : A) (blk : Block) (a2 : A), ops.commitBlock a blk = .ok a2 →
      ops.accountsHash a2 = blk.header.accounts_hash) :
    ∀ (l : List (Nat × ChainInfo)) (x : Nat × ChainInfo) (acc : A)
      (cache : TransactionCache) (a2 : A) (c2 : TransactionCache),
      applyFork ops acc cache (l ++ [x]) = .ok (a2, c2) →
      ops.accountsHash a2 = x.2.head.header.accounts_hash := by
  intro l
  induction l with
  | nil =>
    intro x acc cache a2 c2 h
    rw [List.nil_append] at h
    unfold applyFork at h
    split at h
    · exact Except.noConfusion h
    · split at h
      · exact Except.noConfusion h
      · rename_i acc1 heq
        unfold applyFork at h
        rw [Except.ok.injEq, Prod.mk.injEq] at h
        obtain ⟨ha, hc⟩ := h
        subst ha
        exact hcommit acc x.2.head acc1 heq
  | cons y l ih =>
    intro x acc cache a2 c2 h
    rw [List.cons_append] at h
    unfold applyFork at h
    split at h
    · exact Except.noConfusion h
    · split at h
      · exact Except.noConfusion h
      · rename_i acc1 heq
        exact ih x acc1 _ a2 c2 h

theorem setForkFlags_head (f0 : Nat × ChainInfo) (rest : List (Nat × ChainInfo)) :
    (setForkFlags (f0 :: rest)).head?
      = some (f0.1, { f0.2 with on_main_chain := true, main_chain_successor := none }) := by
  simp [setForkFlags]

theorem rebranchPublish_ok {A : Type} (s : BlockchainState A)
    (fc : List (Nat × ChainInfo)) (anc : Nat × ChainInfo)
    (rc : List (Nat × ChainInfo)) (a2 : A) (c3 : TransactionCache)
    (r : PushResult) (s1 : BlockchainState A)
    (h : rebranchPublish s fc anc rc a2 c3 = some (r, s1)) :
    ∃ f0 rest, fc = f0 :: rest ∧ r = .Rebranched ∧ s1.accounts = a2
      ∧ s1.main_chain.head = f0.2.head := by
  cases fc with
  | nil =>
    exact absurd h (by simp [rebranchPublish])
  | cons f0 rest =>
    refine ⟨f0, rest, rfl, ?_⟩
    have hsome : ((f0 :: rest).getLast?).isSome := by
      rw [List.getLast?_isSome]
      exact List.cons_ne_nil f0 rest
    obtain ⟨lastF, hlast⟩ := Option.isSome_iff_exists.mp hsome
    unfold rebranchPublish at h
    rw [hlast] at h
    simp only [setForkFlags_head, Option.some.injEq, Prod.mk.injEq] at h
    obtain ⟨hr1, hs1⟩ := h
    subst hr1
    subst hs1
    exact ⟨rfl, rfl, rfl⟩

theorem extend_accounts_hash {A : Type} (ops : EngineOps A) (s : BlockchainState A)
    (bh : Nat) (ci pi : ChainInfo) (r : PushResult) (s1 : BlockchainState A)
    (hcommit : ∀ (a : A) (blk : Block) (a2 : A), ops.commitBlock a blk = .ok a2 →
      ops.accountsHash a2 = blk.header.accounts_hash)
    (h : Blockchain.extend ops s bh ci pi = some (r, s1))
    (hr : r = .Extended ∨ r = .Rebranched) :
    ops.accountsHash s1.accounts = s1.main_chain.head.header.accounts_hash := by
  unfold Blockchain.extend at h
  split at h
  · simp only [Option.some.injEq, Prod.mk.injEq] at h
    obtain ⟨hr1, hs1⟩ := h
    subst hr1
    rcases hr with h1 | h1 <;> exact PushResult.noConfusion h1
  · split at h
    · simp only [Option.some.injEq, Prod.mk.injEq] at h
      obtain ⟨hr1, hs1⟩ := h
      subst hr1
      rcases hr with h1 | h1 <;> exact PushResult.noConfusion h1
    · rename_i acc1 heq
      simp only [Option.some.injEq, Prod.mk.injEq] at h
      obtain ⟨hr1, hs1⟩ := h
      subst hs1
      exact hcommit s.accounts ci.head acc1 heq

theorem rebranch_accounts_hash {A : Type} (ops : EngineOps A) (fuel : Nat)
    (s : BlockchainState A) (bh : Nat) (ci : ChainInfo) (r : PushResult)
    (s1 : BlockchainState A)
    (hcommit : ∀ (a : A) (blk : Block) (a2 : A), ops.commitBlock a blk = .ok a2 →
      ops.accountsHash a2 = blk.header.accounts_hash)
    (h : Blockchain.rebranch ops fuel s bh ci = some (r, s1))
    (hr : r = .Extended ∨ r = .Rebranched) :
    ops.accountsHash s1.accounts = s1.main_chain.head.header.accounts_hash := by
  unfold Blockchain.rebranch at h
  split at h
  · exact Option.noConfusion h
  · rename_i fc anc hwalk
    split at h
    · exact Option.noConfusion h
    · rename_i acc1 cache1 rc hrev
      split at h
      · exact Option.noConfusion h
      · rename_i cache2 hrefill
        split at h
        · simp only [Option.some.injEq, Prod.mk.injEq] at h
          obtain ⟨hr1, hs1⟩ := h
          subst hr1
          rcases hr with h1 | h1 <;> exact PushResult.noConfusion h1
        · rename_i acc2 cache3 happly
          obtain ⟨f0, rest, hfc, hrr, hacc, hhead⟩ :=
            rebranchPublish_ok s fc anc rc acc2 cache3 r s1 h
          subst hfc
          rw [hacc, hhead]
          rw [List.reverse_cons] at happly
          exact applyFork_append_last ops hcommit rest.reverse f0 acc1 cache2 acc2 cache3 happly

/-- Claim C1 (confirmed): after every push returning `Extended` or
`Rebranched`, the accounts tree root equals the accounts hash in the
header of the new main-chain head, for every accounts backend whose
`commit_block` establishes the spec contract (success means the computed
root equals the committed header accounts hash). -/
theorem c1_accounts_hash_invariant {A : Type} (ops : EngineOps A) (fuel : Nat)
    (s : BlockchainState A) (b : Block) (r : PushResult) (s1 : BlockchainState A)
    (hcommit : ∀ (a : A) (blk : Block) (a2 : A), ops.commitBlock a blk = .ok a2 →
      ops.accountsHash a2 = blk.header.accounts_hash)
    (hpush : Blockchain.push ops fuel s b = some (r, s1))
    (hr : r = .Extended ∨ r = .Rebranched) :
    ops.accountsHash s1.accounts = s1.main_chain.head.header.accounts_hash := by
  unfold Blockchain.push at hpush
  split at hpush
  · simp only [Option.some.injEq, Prod.mk.injEq] at hpush
    obtain ⟨hr1, hs1⟩ := hpush
    subst hr1
    rcases hr with h1 | h1 <;> exact PushResult.noConfusion h1
  · split at hpush
    · simp only [Option.some.injEq, Prod.mk.injEq] at hpush
      obtain ⟨hr1, hs1⟩ := hpush
      subst hr1
      rcases hr with h1 | h1 <;> exact PushResult.noConfusion h1
    · split at hpush
      · simp only [Option.some.injEq, Prod.mk.injEq] at hpush
        obtain ⟨hr1, hs1⟩ := hpush
        subst hr1
        rcases hr with h1 | h1 <;> exact PushResult.noConfusion h1
      · rename_i prev_info hprev
        split at hpush
        · simp only [Option.some.injEq, Prod.mk.injEq] at hpush
          obtain ⟨hr1, hs1⟩ := hpush
          subst hr1
          rcases hr with h1 | h1 <;> exact PushResult.noConfusion h1
        · split at hpush
          · simp only [Option.some.injEq, Prod.mk.injEq] at hpush
            obtain ⟨hr1, hs1⟩ := hpush
            subst hr1
            rcases hr with h1 | h1 <;> exact PushResult.noConfusion h1
          · split at hpush
            · exact extend_accounts_hash ops s _ _ prev_info r s1 hcommit hpush hr
            · split at hpush
              · exact rebranch_accounts_hash ops fuel s _ _ r s1 hcommit hpush hr
              · simp only [Option.some.injEq, Prod.mk.injEq] at hpush
                obtain ⟨hr1, hs1⟩ := hpush
                subst hr1
                rcases hr with h1 | h1 <;> exact PushResult.noConfusion h1

/-- Witness for C1: pushing `blockTwo` onto the fresh genesis state
returns `Extended`, and the resulting accounts root equals the new head
header accounts hash. -/
theorem c1_accounts_hash_invariant_witness :
    engineOpsSample.accountsHash extendedState.accounts
      = extendedState.main_chain.head.header.accounts_hash :=
  c1_accounts_hash_invariant engineOpsSample 5 chainStateSample blockTwo
    .Extended extendedState
    (fun a blk a2 h => by cases h; rfl) rfl (Or.inl rfl)

theorem push_classification {A : Type} (ops : EngineOps A) (fuel : Nat)
    (s : BlockchainState A) (b : Block) (prev_info : ChainInfo)
    (hver : ops.verify b = none)
    (hnew : storeGet s.storeEntries (ops.hashHeader b.header) = none)
    (hprev : storeGet s.storeEntries b.header.prev_hash = some prev_info)
    (hsucc : ops.isImmediateSuccessorOf b prev_info.head = true)
    (hbits : b.header.n_bits = ops.nextTargetNBits s.storeEntries b.header.prev_hash) :
    Blockchain.push ops fuel s b
      = (if (ChainInfo.next ops prev_info b).head.header.prev_hash = s.head_hash then
          Blockchain.extend ops s (ops.hashHeader b.header)
            (ChainInfo.next ops prev_info b) prev_info
        else if s.main_chain.total_difficulty
            < (ChainInfo.next ops prev_info b).total_difficulty then
          Blockchain.rebranch ops fuel s (ops.hashHeader b.header)
            (ChainInfo.next ops prev_info b)
        else
          some (.Forked, { s with storeEntries :=
            (storePut s.storeEntries (ops.hashHeader b.header)
              (ChainInfo.next ops prev_info b)) })) := by
  unfold Blockchain.push
  rw [hver, hnew, hprev]
  simp [hsucc, hbits]

/-- Claim C2 (confirmed): for every otherwise-valid block whose
predecessor is known, push extends when the block continues the current
head, rebranches when the new cumulative difficulty strictly exceeds the
main chain total difficulty, and otherwise (including ties) stores the
block as a fork, returns `Forked`, and leaves the head hash unchanged. -/
theorem c2_fork_choice {A : Type} (ops : EngineOps A) (fuel : Nat)
    (s : BlockchainState A) (b : Block) (prev_info : ChainInfo)
    (hver : ops.verify b = none)
    (hnew : storeGet s.storeEntries (ops.hashHeader b.header) = none)
    (hprev : storeGet s.storeEntries b.header.prev_hash = some prev_info)
    (hsucc : ops.isImmediateSuccessorOf b prev_info.head = true)
    (hbits : b.header.n_bits = ops.nextTargetNBits s.storeEntries b.header.prev_hash) :
    (b.header.prev_hash = s.head_hash →
      Blockchain.push ops fuel s b
        = Blockchain.extend ops s (ops.hashHeader b.header)
            (ChainInfo.next ops prev_info b) prev_info)
    ∧ (b.header.prev_hash ≠ s.head_hash →
        s.main_chain.total_difficulty < (ChainInfo.next ops prev_info b).total_difficulty →
        Blockchain.push ops fuel s b
          = Blockchain.rebranch ops fuel s (ops.hashHeader b.header)
              (ChainInfo.next ops prev_info b))
    ∧ (b.header.prev_hash ≠ s.head_hash →
        ¬ s.main_chain.total_difficulty < (ChainInfo.next ops prev_info b).total_difficulty →
        Blockchain.push ops fuel s b
          = some (.Forked, { s with storeEntries :=
              (storePut s.storeEntries (ops.hashHeader b.header)
                (ChainInfo.next ops prev_info b)) })
          ∧ ∀ s1 : BlockchainState A,
              Blockchain.push ops fuel s b = some (.Forked, s1) →
              s1.head_hash = s.head_hash) := by
  have hred := push_classification ops fuel s b prev_info hver hnew hprev hsucc hbits
  refine ⟨?_, ?_, ?_⟩
  · intro hext
    rw [hred,
      if_pos (show (ChainInfo.next ops prev_info b).head.header.prev_hash = s.head_hash from hext)]
  · intro hne hlt
    rw [hred,
      if_neg (show ¬ (ChainInfo.next ops prev_info b).head.header.prev_hash = s.head_hash from hne),
      if_pos hlt]
  · intro hne hnlt
    rw [hred,
      if_neg (show ¬ (ChainInfo.next ops prev_info b).head.header.prev_hash = s.head_hash from hne),
      if_neg hnlt]
    refine ⟨rfl, fun s1 h1 => ?_⟩
    simp only [Option.some.injEq, Prod.mk.injEq] at h1
    obtain ⟨h2, h3⟩ := h1
    subst h3
    rfl

/-- Witness for C2: on the fresh genesis state, `blockTwo` meets every
hypothesis and extends the main chain. -/
theorem c2_fork_choice_witness :
    Blockchain.push engineOpsSample 5 chainStateSample blockTwo
      = Blockchain.extend engineOpsSample chainStateSample
          (engineOpsSample.hashHeader blockTwo.header)
          (ChainInfo.next engineOpsSample genesisInfo blockTwo) genesisInfo :=
  (c2_fork_choice engineOpsSample 5 chainStateSample blockTwo genesisInfo
    rfl rfl rfl rfl rfl).1 rfl

/-- Claim C3 counterexample: the claim as frozen quantifies over every
pushed block containing a transaction already within the window of the
most recent `W` accepted blocks, but only the extend path runs that
check.  Pushing `blockThreeFork` — a valid sibling of the head whose
transaction 42 is in the window and whose chain exactly ties the main
chain difficulty — stores it as a fork and returns `Forked`, not
`Invalid(DuplicateTransaction)`. -/
theorem c3_duplicate_not_always_rejected :
    chainStateForkDup.transaction_cache.containsAny blockThreeFork = true
      ∧ (Blockchain.push engineOpsSample 5 chainStateForkDup blockThreeFork).map Prod.fst
        = some PushResult.Forked
      ∧ (Blockchain.push engineOpsSample 5 chainStateForkDup blockThreeFork).map Prod.fst
        ≠ some (PushResult.Invalid PushError.DuplicateTransaction) := by
  have hpush : Blockchain.push engineOpsSample 5 chainStateForkDup blockThreeFork
      = some (.Forked, { chainStateForkDup with storeEntries :=
          (storePut chainStateForkDup.storeEntries
            (engineOpsSample.hashHeader blockThreeFork.header)
            (ChainInfo.next engineOpsSample
              { genesisInfo with main_chain_successor := some 2 } blockThreeFork)) }) := by
    have h := push_classification engineOpsSample 5 chainStateForkDup blockThreeFork
      { genesisInfo with main_chain_successor := some 2 } rfl rfl rfl rfl rfl
    rw [h,
      if_neg (show ¬ (ChainInfo.next engineOpsSample
          { genesisInfo with main_chain_successor := some 2 } blockThreeFork).head.header.prev_hash
          = chainStateForkDup.head_hash from by decide),
      if_neg (show ¬ chainStateForkDup.main_chain.total_difficulty
          < (ChainInfo.next engineOpsSample
            { genesisInfo with main_chain_successor := some 2 } blockThreeFork).total_difficulty from by
        show ¬ (2 : ℚ) < 1 + 1
        norm_num)]
  refine ⟨rfl, ?_, ?_⟩
  · rw [hpush]
    rfl
  · rw [hpush]
    simp

/-- Claim C3 as amended (the replay rejection the code implements, on the
path where the window of the most recent `W` accepted blocks is
consulted): pushing an otherwise-valid block that extends the current
head (`prev_hash = head_hash`) and contains a transaction already present
in the replay window returns `Invalid(DuplicateTransaction)` and leaves
the state (accounts, cache, store, head) untouched. -/
theorem c3_duplicate_transaction_rejected {A : Type} (ops : EngineOps A) (fuel : Nat)
    (s : BlockchainState A) (b : Block) (prev_info : ChainInfo)
    (hver : ops.verify b = none)
    (hnew : storeGet s.storeEntries (ops.hashHeader b.header) = none)
    (hprev : storeGet s.storeEntries b.header.prev_hash = some prev_info)
    (hsucc : ops.isImmediateSuccessorOf b prev_info.head = true)
    (hbits : b.header.n_bits = ops.nextTargetNBits s.storeEntries b.header.prev_hash)
    (hext : b.header.prev_hash = s.head_hash)
    (hdup : s.transaction_cache.containsAny b = true) :
    Blockchain.push ops fuel s b = some (.Invalid .DuplicateTransaction, s) := by
  have hred := push_classification ops fuel s b prev_info hver hnew hprev hsucc hbits
  rw [hred,
    if_pos (show (ChainInfo.next ops prev_info b).head.header.prev_hash = s.head_hash from hext)]
  unfold Blockchain.extend
  rw [if_pos]
  exact hdup

/-- Witness for C3: pushing `blockTwo` when transaction 42 is in the
window is rejected with `DuplicateTransaction` and the state is
unchanged. -/
theorem c3_duplicate_transaction_rejected_witness :
    Blockchain.push engineOpsSample 5 chainStateDup blockTwo
      = some (.Invalid .DuplicateTransaction, chainStateDup) :=
  c3_duplicate_transaction_rejected engineOpsSample 5 chainStateDup blockTwo genesisInfo
    rfl rfl rfl rfl rfl rfl rfl

/-- Claim C4 (confirmed): re-pushing a block the store already contains
returns `Known` and the push leaves every component of the state (store,
accounts, cache, main chain, head hash) exactly as it was. -/
theorem c4_known_no_mutation {A : Type} (ops : EngineOps A) (fuel : Nat)
    (s : BlockchainState A) (b : Block) (info : ChainInfo)
    (hver : ops.verify b = none)
    (hknown : storeGet s.storeEntries (ops.hashHeader b.header) = some info) :
    Blockchain.push ops fuel s b = some (.Known, s) := by
  unfold Blockchain.push
  rw [hver, hknown]
  simp

/-- Witness for C4: re-pushing the genesis block returns `Known` with the
state unchanged. -/
theorem c4_known_no_mutation_witness :
    Blockchain.push engineOpsSample 5 chainStateSample genesisBlock
      = some (.Known, chainStateSample) :=
  c4_known_no_mutation engineOpsSample 5 chainStateSample genesisBlock genesisInfo rfl rfl

end CoreRs
